import Mathlib

/-!
Shallow embedding of the SSE streaming core of the stromboli Go client
(stream.go: `readEvent`, `Stream.Next`, `Stream.Err`, `Stream.Close`,
`Stream.EventsWithContext`, and the response-handling tail of
`Client.Stream`).

Go strings are byte strings; we model them as `List Char` and count bytes
with `Char.utf8Size`.  The buffered reader (`bufio.Reader.ReadString('\n')`)
is modelled by a `Reader`: the list of complete (newline-terminated) lines,
stored without their final newline, plus an optional unterminated final
fragment.  `ReadString` on a complete line returns the line including its
newline and no error; at end of input it returns the fragment (or nothing)
together with `io.EOF`.
-/

set_option autoImplicit false

namespace Stromboli

/-- A Go string / line of input, modelled as a list of characters. -/
abbrev Line := List Char

/-- Go `len` on a string: the UTF-8 byte length. -/
def byteLen (l : Line) : Nat := (l.map Char.utf8Size).sum

/-- `maxEventSize = 10 * 1024 * 1024`: cap on the bytes of one SSE event. -/
def maxEventSize : Nat := 10 * 1024 * 1024

/-- `maxErrorBodySize = 4096`: cap on the error-body excerpt read by `Client.Stream`. -/
def maxErrorBodySize : Nat := 4096

/-- `strings.TrimSuffix s sfx`: remove `sfx` from the end of `s` if present. -/
def trimSfx (l sfx : Line) : Line :=
  if sfx.isSuffixOf l then l.take (l.length - sfx.length) else l

/-- `strings.CutPrefix s p`: `(rest, true)` when `p` heads `s`, else `(s, false)`. -/
def cutPfx (l p : Line) : Line × Bool :=
  if p.isPrefixOf l then (l.drop p.length, true) else (l, false)

/-- `StreamEvent`: one SSE event (fields `Type`, `Data`, `ID` in the Go struct). -/
structure StreamEvent where
  type : Line
  data : Line
  id : Line
  deriving Repr, DecidableEq, Inhabited

/-- The zero value `&StreamEvent{}` that `readEvent` starts from. -/
def emptyEvent : StreamEvent := ⟨[], [], []⟩

def dataPfx : Line := "data:".toList
def dataMark : Line := "data: ".toList
def eventPfx : Line := "event:".toList
def eventMark : Line := "event: ".toList
def idPfx : Line := "id:".toList
def idMark : Line := "id: ".toList

/-- The field `switch` in `readEvent`, applied to one trimmed non-blank line:
for `data:` lines try `CutPrefix "data: "` first, then `CutPrefix "data:"`,
and append to `Data` with a `'\n'` separator when data was already seen;
`event:` and `id:` lines overwrite `Type` / `ID` with the same
one-optional-space rule; anything else (comments, `retry:`) is ignored.
Returns the updated event and the updated `hasData` flag. -/
def processLine (line : Line) (event : StreamEvent) (hasData : Bool) :
    StreamEvent × Bool :=
  if dataPfx.isPrefixOf line then
    let c := cutPfx line dataMark
    let d := if c.2 then c.1 else (cutPfx line dataPfx).1
    if hasData then ({ event with data := event.data ++ '\n' :: d }, true)
    else ({ event with data := d }, true)
  else if eventPfx.isPrefixOf line then
    let c := cutPfx line eventMark
    ({ event with type := if c.2 then c.1 else (cutPfx line eventPfx).1 }, hasData)
  else if idPfx.isPrefixOf line then
    let c := cutPfx line idMark
    ({ event with id := if c.2 then c.1 else (cutPfx line idPfx).1 }, hasData)
  else (event, hasData)

/-- The buffered reader's remaining input: complete lines (without their
terminating newline) and an optional unterminated final fragment. -/
structure Reader where
  lines : List Line
  frag : Option Line
  deriving Repr, DecidableEq

/-- Errors the modelled reading loop can produce: `io.EOF` or the
"event exceeds maximum size" error. -/
inductive SSEErr where
  | eof
  | tooLarge
  deriving Repr, DecidableEq

instance : DecidableEq (Except SSEErr StreamEvent) := fun a b =>
  match a, b with
  | .ok x, .ok y =>
    if h : x = y then .isTrue (congrArg Except.ok h)
    else .isFalse (fun hcon => h (Except.ok.inj hcon))
  | .error x, .error y =>
    if h : x = y then .isTrue (congrArg Except.error h)
    else .isFalse (fun hcon => h (Except.error.inj hcon))
  | .ok _, .error _ => .isFalse (fun hcon => Except.noConfusion hcon)
  | .error _, .ok _ => .isFalse (fun hcon => Except.noConfusion hcon)

/-- The loop of `readEvent`.  Each iteration reads one line:
a complete line comes back with its `'\n'` and is counted against
`maxEventSize`, trimmed of `"\n"` then `"\r"`, and either ends the event
(blank line with data pending), is skipped (blank line, no data), or is fed
to the field switch.  At end of input the unterminated fragment is returned
together with `io.EOF` and its content is discarded; the pending event is
salvaged when at least one `data:` line was seen. -/
def readEventLoop : List Line → Option Line → StreamEvent → Bool → Nat →
    Except SSEErr StreamEvent × Reader
  | [], _, event, hasData, _ =>
    if hasData then (.ok event, ⟨[], none⟩) else (.error .eof, ⟨[], none⟩)
  | l :: rest, frag, event, hasData, totalSize =>
    let raw := l ++ ['\n']
    let totalSize := totalSize + byteLen raw
    if maxEventSize < totalSize then (.error .tooLarge, ⟨rest, frag⟩)
    else
      let line := trimSfx (trimSfx raw ['\n']) ['\r']
      if line = [] then
        if hasData then (.ok event, ⟨rest, frag⟩)
        else readEventLoop rest frag event hasData totalSize
      else
        let p := processLine line event hasData
        readEventLoop rest frag p.1 p.2 totalSize

/-- `Stream.readEvent`: run the loop from a fresh zero event, `hasData = false`
and a fresh size counter `totalSize = 0`. -/
def readEvent (r : Reader) : Except SSEErr StreamEvent × Reader :=
  readEventLoop r.lines r.frag emptyEvent false 0

/-- The mutable state of a `Stream`: the reader, the current event
(`nil` initially), the sticky error slot, the one-shot `closed` flag,
whether a response body is attached (`resp != nil && resp.Body != nil`),
how many times `resp.Body.Close()` has run, and what it returns when run. -/
structure StreamState where
  reader : Reader
  current : Option StreamEvent
  err : Option SSEErr
  closed : Bool
  hasBody : Bool
  bodyCloses : Nat
  bodyCloseRes : Option Unit
  deriving Repr, DecidableEq

/-- `Stream.Next`: false immediately when closed or errored; otherwise run
`readEvent` once.  `io.EOF` ends iteration without setting the sticky error;
any other error is stored; success stores the event as current. -/
def Stream.Next (s : StreamState) : Bool × StreamState :=
  if s.closed || s.err.isSome then (false, s)
  else
    match readEvent s.reader with
    | (.error .eof, r) => (false, { s with reader := r })
    | (.error e, r) => (false, { s with reader := r, err := some e })
    | (.ok ev, r) => (true, { s with reader := r, current := some ev })

/-- `Stream.Err`: the sticky error slot. -/
def Stream.Err (s : StreamState) : Option SSEErr := s.err

/-- `Stream.Event`: the current event. -/
def Stream.Event (s : StreamState) : Option StreamEvent := s.current

/-- `Stream.Close`: `closed.Swap(true)`; when the flag was already set return
`nil` at once, otherwise close the response body (when present) exactly once
and return its result. -/
def Stream.Close (s : StreamState) : Option Unit × StreamState :=
  if s.closed then (none, s)
  else
    let s' := { s with closed := true }
    if s'.hasBody then (s'.bodyCloseRes, { s' with bodyCloses := s'.bodyCloses + 1 })
    else (none, s')

/-- The producer side of `Stream.EventsWithContext`.  `store` is the heap of
allocated `StreamEvent` cells (an index is a pointer); `sent` lists, oldest
first, the pointers delivered on the channel. -/
structure ChanState where
  stream : StreamState
  store : List StreamEvent
  sent : List Nat
  deriving Repr, DecidableEq

/-- One iteration of the `for s.Next()` loop in `EventsWithContext`: advance;
on success execute `event := *s.current` — copy the current event into a
fresh cell — and send a pointer to that fresh cell. -/
def chanStep (c : ChanState) : Option ChanState :=
  if (Stream.Next c.stream).1 then
    match (Stream.Next c.stream).2.current with
    | some ev =>
      some ⟨(Stream.Next c.stream).2, c.store ++ [ev], c.sent ++ [c.store.length]⟩
    | none => none
  else none

/-- Run the producer loop for at most `k` iterations. -/
def chanRun (c : ChanState) : Nat → ChanState
  | 0 => c
  | k + 1 =>
    match chanStep c with
    | some c' => chanRun c' k
    | none => c

/-- An HTTP response as `Client.Stream` sees it after `httpClient.Do`:
status code, `Content-Type` header value, and the body bytes. -/
structure HTTPResponse where
  statusCode : Nat
  contentType : Line
  body : Line
  deriving Repr, DecidableEq

/-- The fields of the `*stromboli.Error` built by `newError` that the
streaming path populates (code, message, HTTP status). -/
structure SBError where
  code : Line
  message : Line
  status : Nat
  deriving Repr, DecidableEq

def tesPfx : Line := "text/event-stream".toList

/-- Split a byte stream into the reader model: segments before each `'\n'`
become complete lines; a non-empty remainder after the last `'\n'` becomes
the unterminated fragment. -/
def splitLines : Line → List Line × Option Line
  | [] => ([], none)
  | c :: rest =>
    if c = '\n' then
      let r := splitLines rest
      ([] :: r.1, r.2)
    else
      match splitLines rest with
      | (l :: ls, f) => ((c :: l) :: ls, f)
      | ([], f) => ([], some (c :: f.getD []))

/-- `bufio.NewReader(resp.Body)`. -/
def Reader.ofBytes (body : Line) : Reader := ⟨(splitLines body).1, (splitLines body).2⟩

/-- Outcome of the response-handling tail of `Client.Stream`: the stream, or
the returned error, plus whether the response body was released. -/
structure StreamAttempt where
  stream : Option StreamState
  err : Option SBError
  bodyClosed : Bool
  deriving Repr, DecidableEq

/-- The response-handling tail of `Client.Stream`: non-200 → read at most
`maxErrorBodySize` bytes of the body, close it, return a `STREAM_ERROR`
carrying the status and the excerpt; 200 with a `Content-Type` not starting
with `text/event-stream` → close the body, return `INVALID_RESPONSE`;
otherwise build the `Stream` owning the body. -/
def handleStreamResponse (resp : HTTPResponse) : StreamAttempt :=
  if resp.statusCode ≠ 200 then
    { stream := none
      err := some ⟨"STREAM_ERROR".toList,
        "stream request failed: ".toList ++ resp.body.take maxErrorBodySize,
        resp.statusCode⟩
      bodyClosed := true }
  else if ¬ tesPfx.isPrefixOf resp.contentType then
    { stream := none
      err := some ⟨"INVALID_RESPONSE".toList,
        "unexpected content type: ".toList ++ resp.contentType,
        resp.statusCode⟩
      bodyClosed := true }
  else
    { stream := some
        { reader := Reader.ofBytes resp.body
          current := none
          err := none
          closed := false
          hasBody := true
          bodyCloses := 0
          bodyCloseRes := none }
      err := none
      bodyClosed := false }

/-- The spec's description of field-payload extraction: strip the field
prefix, then strip exactly one leading space if one is present. -/
def stripOneSpace : Line → Line
  | [] => []
  | c :: r => if c = ' ' then r else c :: r

/-- Spec reading of a `data:` line's payload: drop the `data:` prefix and at
most one leading space. -/
def specDataPayload (l : Line) : Line := stripOneSpace (l.drop dataPfx.length)

/-- Join payloads with `'\n'` separators, in order. -/
def joinNL : List Line → Line
  | [] => []
  | [x] => x
  | x :: y :: xs => x ++ '\n' :: joinNL (y :: xs)

/-- The bytes a complete line contributes to the size counter:
its payload plus the `'\n'` that `ReadString` includes. -/
def rawBytes (l : Line) : Nat := byteLen l + 1

/-- The field `switch` folded over a run of (trimmed) lines, tracking the
in-progress event and the `hasData` flag. -/
def scanLines (ls : List Line) (e : StreamEvent) (h : Bool) : StreamEvent × Bool :=
  ls.foldl (fun p l => processLine (trimSfx l ['\r']) p.1 p.2) (e, h)

/-! ### Basic lemmas about the embedded string operations -/

theorem byteLen_append (a b : Line) : byteLen (a ++ b) = byteLen a + byteLen b := by
  simp [byteLen]

theorem byteLen_append_nl (l : Line) : byteLen (l ++ ['\n']) = rawBytes l := by
  have h1 : ('\n').utf8Size = 1 := by decide
  simp [byteLen, rawBytes, h1]

theorem trimSfx_append_nl (l : Line) : trimSfx (l ++ ['\n']) ['\n'] = l := by
  unfold trimSfx
  rw [if_pos]
  · simp
  · exact List.isSuffixOf_iff_suffix.2 ⟨l, rfl⟩

/-- The cons-case unfolding of `readEventLoop`, with the raw line's trimming
and byte accounting carried out. -/
theorem readEventLoop_cons (l : Line) (rest : List Line) (frag : Option Line)
    (e : StreamEvent) (h : Bool) (t : Nat) :
    readEventLoop (l :: rest) frag e h t =
      if maxEventSize < t + rawBytes l then (.error .tooLarge, ⟨rest, frag⟩)
      else if trimSfx l ['\r'] = [] then
        (if h then ((.ok e : Except SSEErr StreamEvent), (⟨rest, frag⟩ : Reader))
         else readEventLoop rest frag e h (t + rawBytes l))
      else
        readEventLoop rest frag
          (processLine (trimSfx l ['\r']) e h).1
          (processLine (trimSfx l ['\r']) e h).2 (t + rawBytes l) := by
  conv => lhs; rw [readEventLoop]
  simp only [byteLen_append_nl, trimSfx_append_nl]

theorem cutPfx_of_prefix (l p : Line) (hp : p <+: l) :
    cutPfx l p = (l.drop p.length, true) := by
  unfold cutPfx
  rw [if_pos (List.isPrefixOf_iff_prefix.2 hp)]

theorem cutPfx_mark (p l : Line) (hp : p <+: l) :
    (if (cutPfx l (p ++ [' '])).2 then (cutPfx l (p ++ [' '])).1
     else (cutPfx l p).1) = stripOneSpace (l.drop p.length) := by
  obtain ⟨r, rfl⟩ := hp
  rcases r with _ | ⟨c, r'⟩
  · have hno : ¬ p ++ [' '] <+: p := by
      intro hcon
      have hlen := hcon.length_le
      simp at hlen
    simp [cutPfx, hno, List.drop_left, List.drop_length, stripOneSpace]
  · by_cases hc : c = ' '
    · subst hc
      have hyes : (p ++ [' ']).isPrefixOf (p ++ ' ' :: r') = true := by
        rw [List.isPrefixOf_iff_prefix, List.prefix_append_right_inj]
        exact ⟨r', rfl⟩
      have hdrop : (p ++ ' ' :: r').drop (p ++ [' ']).length = r' := by
        rw [show p ++ ' ' :: r' = (p ++ [' ']) ++ r' from by simp, List.drop_left]
      simp [cutPfx, hyes, hdrop, List.drop_left, stripOneSpace]
    · have hno : (p ++ [' ']).isPrefixOf (p ++ c :: r') = false := by
        rw [Bool.eq_false_iff]
        intro hcon
        rw [List.isPrefixOf_iff_prefix, List.prefix_append_right_inj] at hcon
        exact hc ((List.cons_prefix_cons.1 hcon).1.symm)
      have hyes : p.isPrefixOf (p ++ c :: r') = true :=
        List.isPrefixOf_iff_prefix.2 ⟨c :: r', rfl⟩
      simp [cutPfx, hno, hyes, List.drop_left, stripOneSpace, hc]

theorem dataMark_eq : dataMark = dataPfx ++ [' '] := by decide
theorem eventMark_eq : eventMark = eventPfx ++ [' '] := by decide
theorem idMark_eq : idMark = idPfx ++ [' '] := by decide

theorem not_dataPfx_of_eventPfx (l : Line) (hl : eventPfx <+: l) :
    dataPfx.isPrefixOf l = false := by
  obtain ⟨r, rfl⟩ := hl
  rw [Bool.eq_false_iff]
  intro hcon
  rw [List.isPrefixOf_iff_prefix] at hcon
  rw [show eventPfx = 'e' :: "vent:".toList from by decide,
    show dataPfx = 'd' :: "ata:".toList from by decide] at hcon
  simp only [List.cons_append, List.cons_prefix_cons] at hcon
  exact absurd hcon.1 (by decide)

theorem not_dataPfx_of_idPfx (l : Line) (hl : idPfx <+: l) :
    dataPfx.isPrefixOf l = false := by
  obtain ⟨r, rfl⟩ := hl
  rw [Bool.eq_false_iff]
  intro hcon
  rw [List.isPrefixOf_iff_prefix] at hcon
  rw [show idPfx = 'i' :: "d:".toList from by decide,
    show dataPfx = 'd' :: "ata:".toList from by decide] at hcon
  simp only [List.cons_append, List.cons_prefix_cons] at hcon
  exact absurd hcon.1 (by decide)

theorem not_eventPfx_of_idPfx (l : Line) (hl : idPfx <+: l) :
    eventPfx.isPrefixOf l = false := by
  obtain ⟨r, rfl⟩ := hl
  rw [Bool.eq_false_iff]
  intro hcon
  rw [List.isPrefixOf_iff_prefix] at hcon
  rw [show idPfx = 'i' :: "d:".toList from by decide,
    show eventPfx = 'e' :: "vent:".toList from by decide] at hcon
  simp only [List.cons_append, List.cons_prefix_cons] at hcon
  exact absurd hcon.1 (by decide)

theorem processLine_data (l : Line) (e : StreamEvent) (h : Bool)
    (hl : dataPfx <+: l) :
    processLine l e h =
      (if h then { e with data := e.data ++ '\n' :: specDataPayload l }
       else { e with data := specDataPayload l }, true) := by
  unfold processLine
  rw [if_pos (List.isPrefixOf_iff_prefix.2 hl)]
  simp only [dataMark_eq, specDataPayload]
  rw [cutPfx_mark dataPfx l hl]
  split <;> rfl

theorem processLine_event (l : Line) (e : StreamEvent) (h : Bool)
    (hl : eventPfx <+: l) :
    processLine l e h =
      ({ e with type := stripOneSpace (l.drop eventPfx.length) }, h) := by
  unfold processLine
  rw [if_neg (by rw [not_dataPfx_of_eventPfx l hl]; exact Bool.false_ne_true)]
  rw [if_pos (List.isPrefixOf_iff_prefix.2 hl)]
  simp only [eventMark_eq]
  rw [cutPfx_mark eventPfx l hl]

theorem processLine_id (l : Line) (e : StreamEvent) (h : Bool)
    (hl : idPfx <+: l) :
    processLine l e h =
      ({ e with id := stripOneSpace (l.drop idPfx.length) }, h) := by
  unfold processLine
  rw [if_neg (by rw [not_dataPfx_of_idPfx l hl]; exact Bool.false_ne_true)]
  rw [if_neg (by rw [not_eventPfx_of_idPfx l hl]; exact Bool.false_ne_true)]
  rw [if_pos (List.isPrefixOf_iff_prefix.2 hl)]
  simp only [idMark_eq]
  rw [cutPfx_mark idPfx l hl]

theorem joinNL_cons (x : Line) (xs : List Line) :
    joinNL (x :: xs) = x ++ (xs.map (fun y => '\n' :: y)).flatten := by
  induction xs generalizing x with
  | nil => simp [joinNL]
  | cons y ys ih => simp [joinNL, ih y]

theorem dataPfx_length : dataPfx.length = 5 := by decide

theorem ne_nil_of_dataPfx {l : Line} (hl : dataPfx <+: l) : l ≠ [] := by
  intro hnil
  subst hnil
  have hlen := hl.length_le
  rw [dataPfx_length] at hlen
  simp at hlen

/-- The payload of a wire `data:` line: the line with its optional trailing
carriage return removed, then the `data:` prefix and at most one leading
space stripped. -/
def wireDataPayload (l : Line) : Line := specDataPayload (trimSfx l ['\r'])

/-- Running the loop over a run of `data:` lines with `hasData` already set,
ending at a blank line: each payload is appended with a `'\n'` separator. -/
theorem readEventLoop_data_run (ds : List Line) (rest : List Line)
    (frag : Option Line) (e : StreamEvent) (t : Nat)
    (hd : ∀ l ∈ ds, dataPfx <+: trimSfx l ['\r'])
    (hsz : t + ((ds.map rawBytes).sum + 1) ≤ maxEventSize) :
    readEventLoop (ds ++ [] :: rest) frag e true t =
      (.ok { e with
        data := e.data ++ (ds.map (fun l => '\n' :: wireDataPayload l)).flatten },
       ⟨rest, frag⟩) := by
  induction ds generalizing e t with
  | nil =>
    rw [List.nil_append, readEventLoop_cons]
    have hraw : rawBytes ([] : Line) = 1 := by decide
    have h1 : ¬ maxEventSize < t + rawBytes ([] : Line) := by
      rw [hraw]
      simp only [List.map_nil, List.sum_nil, Nat.zero_add] at hsz
      omega
    rw [if_neg h1, if_pos (by decide : trimSfx ([] : Line) ['\r'] = [])]
    simp
  | cons d ds ih =>
    rw [List.cons_append, readEventLoop_cons]
    have hdl : dataPfx <+: trimSfx d ['\r'] := hd d (List.mem_cons_self d ds)
    have hsum : (List.map rawBytes (d :: ds)).sum
        = rawBytes d + (List.map rawBytes ds).sum := by simp
    rw [hsum] at hsz
    have hszd : ¬ maxEventSize < t + rawBytes d := by omega
    rw [if_neg hszd, if_neg (ne_nil_of_dataPfx hdl)]
    have hrest := ih { e with data := e.data ++ '\n' :: wireDataPayload d }
      (t + rawBytes d)
      (fun l hl => hd l (List.mem_cons_of_mem d hl)) (by omega)
    rw [processLine_data (trimSfx d ['\r']) e true hdl]
    simp only [reduceIte]
    rw [show specDataPayload (trimSfx d ['\r']) = wireDataPayload d from rfl]
    rw [hrest]
    simp

/-- Running the loop over lines none of which trims to blank: no event can
complete early, so the run ends at end of input with the folded accumulator,
salvaged exactly when some `data:` line set `hasData`. -/
theorem readEventLoop_no_blank (ls : List Line) (frag : Option Line)
    (e : StreamEvent) (h : Bool) (t : Nat)
    (hb : ∀ l ∈ ls, trimSfx l ['\r'] ≠ [])
    (hsz : t + (ls.map rawBytes).sum ≤ maxEventSize) :
    readEventLoop ls frag e h t =
      (if (scanLines ls e h).2 then .ok (scanLines ls e h).1 else .error .eof,
       ⟨[], none⟩) := by
  induction ls generalizing e h t with
  | nil => cases h <;> simp [readEventLoop, scanLines]
  | cons l ls ih =>
    rw [readEventLoop_cons]
    have hsum : (List.map rawBytes (l :: ls)).sum
        = rawBytes l + (List.map rawBytes ls).sum := by simp
    rw [hsum] at hsz
    have hszl : ¬ maxEventSize < t + rawBytes l := by omega
    rw [if_neg hszl, if_neg (hb l (List.mem_cons_self l ls))]
    rw [ih _ _ _ (fun x hx => hb x (List.mem_cons_of_mem l hx)) (by omega)]
    have hscan : scanLines (l :: ls) e h
        = scanLines ls (processLine (trimSfx l ['\r']) e h).1
            (processLine (trimSfx l ['\r']) e h).2 := by
      simp [scanLines]
    rw [hscan]

theorem processLine_nil (e : StreamEvent) (h : Bool) :
    processLine [] e h = (e, h) := rfl

theorem scanLines_cons (x : Line) (xs : List Line) (e : StreamEvent)
    (h : Bool) :
    scanLines (x :: xs) e h
      = scanLines xs (processLine (trimSfx x ['\r']) e h).1
          (processLine (trimSfx x ['\r']) e h).2 := by
  simp [scanLines]

/-- If the lines assembling one single event — no blank line arrives while
data is pending, so the event never completes — total more than
`maxEventSize` bytes, the loop aborts with the size error. -/
theorem readEventLoop_over (ls : List Line) (frag : Option Line)
    (e : StreamEvent) (h : Bool) (t : Nat)
    (hne : ∀ (k : Nat) (hk : k < ls.length),
      trimSfx (ls.get ⟨k, hk⟩) ['\r'] = [] →
      (scanLines (ls.take k) e h).2 = false)
    (hle : t ≤ maxEventSize)
    (hover : maxEventSize < t + (ls.map rawBytes).sum) :
    (readEventLoop ls frag e h t).1 = .error .tooLarge := by
  induction ls generalizing e h t with
  | nil =>
    simp at hover
    omega
  | cons l ls ih =>
    rw [readEventLoop_cons]
    have hsum : (List.map rawBytes (l :: ls)).sum
        = rawBytes l + (List.map rawBytes ls).sum := by simp
    rw [hsum] at hover
    by_cases hx : maxEventSize < t + rawBytes l
    · rw [if_pos hx]
    · rw [if_neg hx]
      by_cases hbl : trimSfx l ['\r'] = []
      · have hf : h = false := by
          have h0 := hne 0 (by simp) hbl
          simpa [scanLines] using h0
        subst hf
        rw [if_pos hbl, if_neg (by exact Bool.false_ne_true)]
        refine ih _ _ _ ?_ (by omega) (by omega)
        intro k hk hblk
        have hk1 : k + 1 < (l :: ls).length := by
          simpa using Nat.succ_lt_succ hk
        have hthis := hne (k + 1) hk1 hblk
        rw [show (l :: ls).take (k + 1) = l :: ls.take k from rfl] at hthis
        rw [scanLines_cons, hbl, processLine_nil] at hthis
        exact hthis
      · rw [if_neg hbl]
        refine ih _ _ _ ?_ (by omega) (by omega)
        intro k hk hblk
        have hk1 : k + 1 < (l :: ls).length := by
          simpa using Nat.succ_lt_succ hk
        have hthis := hne (k + 1) hk1 hblk
        rw [show (l :: ls).take (k + 1) = l :: ls.take k from rfl] at hthis
        rw [scanLines_cons] at hthis
        exact hthis

/-- The unterminated final fragment's content never reaches the parsed
result: the loop's outcome does not depend on it. -/
theorem readEventLoop_frag_irrel (ls : List Line) (f₁ f₂ : Option Line)
    (e : StreamEvent) (h : Bool) (t : Nat) :
    (readEventLoop ls f₁ e h t).1 = (readEventLoop ls f₂ e h t).1 := by
  induction ls generalizing e h t with
  | nil => rfl
  | cons l ls ih =>
    rw [readEventLoop_cons, readEventLoop_cons]
    by_cases h1 : maxEventSize < t + rawBytes l
    · rw [if_pos h1, if_pos h1]
    · rw [if_neg h1, if_neg h1]
      by_cases h2 : trimSfx l ['\r'] = []
      · rw [if_pos h2, if_pos h2]
        cases h with
        | false => exact ih _ _ _
        | true => rfl
      · rw [if_neg h2, if_neg h2]; exact ih _ _ _

/-! ### Lemmas about the channel producer -/

/-- Invariant: every delivered pointer points into the store. -/
def ChanInv (c : ChanState) : Prop := ∀ loc ∈ c.sent, loc < c.store.length

theorem chanStep_some {c c' : ChanState} (h : chanStep c = some c') :
    c.store <+: c'.store ∧ c.sent <+: c'.sent ∧ (ChanInv c → ChanInv c') := by
  unfold chanStep at h
  split at h
  · split at h
    · injection h with h
      subst h
      refine ⟨⟨_, rfl⟩, ⟨_, rfl⟩, fun hinv loc hloc => ?_⟩
      simp only [List.mem_append, List.mem_singleton] at hloc
      simp only [List.length_append, List.length_singleton]
      rcases hloc with hold | hnew
      · have := hinv loc hold
        omega
      · omega
    · exact absurd h (by simp)
  · exact absurd h (by simp)

theorem chanRun_none {c : ChanState} (h : chanStep c = none) (n : Nat) :
    chanRun c n = c := by
  cases n with
  | zero => rfl
  | succ k => simp [chanRun, h]

theorem chanRun_mono (c : ChanState) (n : Nat) :
    c.store <+: (chanRun c n).store ∧ c.sent <+: (chanRun c n).sent ∧
      (ChanInv c → ChanInv (chanRun c n)) := by
  induction n generalizing c with
  | zero => exact ⟨List.prefix_refl _, List.prefix_refl _, fun hc => hc⟩
  | succ k ih =>
    cases hstep : chanStep c with
    | none =>
      rw [chanRun_none hstep]
      exact ⟨List.prefix_refl _, List.prefix_refl _, fun hc => hc⟩
    | some c' =>
      have hrun : chanRun c (k + 1) = chanRun c' k := by simp [chanRun, hstep]
      rw [hrun]
      obtain ⟨h1, h2, h3⟩ := chanStep_some hstep
      obtain ⟨g1, g2, g3⟩ := ih c'
      exact ⟨h1.trans g1, h2.trans g2, fun hc => g3 (h3 hc)⟩

theorem chanRun_add (c : ChanState) (n k : Nat) :
    chanRun c (n + k) = chanRun (chanRun c n) k := by
  induction n generalizing c with
  | zero =>
    rw [Nat.zero_add, show chanRun c 0 = c from rfl]
  | succ m ih =>
    cases hstep : chanStep c with
    | none => simp [chanRun_none hstep]
    | some c' =>
      have h1 : chanRun c (m + 1 + k) = chanRun c' (m + k) := by
        rw [show m + 1 + k = m + k + 1 from by omega]
        simp [chanRun, hstep]
      have h2 : chanRun c (m + 1) = chanRun c' m := by simp [chanRun, hstep]
      rw [h1, h2, ih c']

theorem prefix_lookup_eq {α : Type} {l₁ l₂ : List α} (h : l₁ <+: l₂) {i : Nat}
    (hi : i < l₁.length) : l₂[i]? = l₁[i]? := by
  obtain ⟨t, rfl⟩ := h
  exact List.getElem?_append_left hi

/-! ### Facts for concrete oversized inputs -/

theorem byteLen_replicate_a (n : Nat) : byteLen (List.replicate n 'a') = n := by
  rw [byteLen, List.map_replicate, show Char.utf8Size 'a' = 1 from by decide,
    List.sum_replicate, smul_eq_mul, Nat.mul_one]

theorem trimSfx_single_ne_nil (l : Line) (c : Char) (h : 2 ≤ l.length) :
    trimSfx l [c] ≠ [] := by
  unfold trimSfx
  split
  · intro hnil
    rcases List.take_eq_nil_iff.1 hnil with h1 | h1
    · simp at h1
      omega
    · subst h1
      simp at h
  · intro hnil
    subst hnil
    simp at h


/-- A stream whose reader is exhausted (and not closed or errored) advances
to a clean stop: false, no state change. -/
theorem Next_empty_reader (s : StreamState) (hclosed : s.closed = false)
    (herr : s.err = none) (hr : s.reader = ⟨[], none⟩) :
    Stream.Next s = (false, s) := by
  have hcond : ¬ (s.closed || s.err.isSome) = true := by
    rw [hclosed, herr]
    exact Bool.false_ne_true
  have hre : readEvent s.reader = (.error .eof, ⟨[], none⟩) := by
    rw [hr]
    rfl
  have hs : ({ s with reader := (⟨[], none⟩ : Reader) } : StreamState) = s := by
    rw [← hr]
  unfold Stream.Next
  rw [if_neg hcond, hre]
  show (false, { s with reader := (⟨[], none⟩ : Reader) }) = (false, s)
  rw [hs]

/-! ### Claim theorems -/

/-- C1 (amended): for every non-empty run of `data:` lines followed by a
blank line whose total raw bytes (each line plus its newline, and the blank
line) stay within the 10 MiB event-size cap, `readEvent` returns exactly one
event whose `Data` is the per-line payloads (the `data:` prefix and at most
one leading space stripped) joined by `'\n'` in wire order, consuming
exactly that block. -/
theorem readEvent_data_block (ds rest : List Line) (frag : Option Line)
    (hne : ds ≠ [])
    (hd : ∀ l ∈ ds, dataPfx <+: trimSfx l ['\r'])
    (hsz : (ds.map rawBytes).sum + 1 ≤ maxEventSize) :
    readEvent ⟨ds ++ [] :: rest, frag⟩ =
      (.ok ⟨[], joinNL (ds.map wireDataPayload), []⟩, ⟨rest, frag⟩) := by
  rcases ds with _ | ⟨d, ds⟩
  · exact absurd rfl hne
  · show readEventLoop ((d :: ds) ++ [] :: rest) frag emptyEvent false 0 = _
    rw [List.cons_append, readEventLoop_cons]
    have hdl : dataPfx <+: trimSfx d ['\r'] := hd d (List.mem_cons_self d ds)
    have hsum : (List.map rawBytes (d :: ds)).sum
        = rawBytes d + (List.map rawBytes ds).sum := by simp
    rw [hsum] at hsz
    have hszd : ¬ maxEventSize < 0 + rawBytes d := by omega
    rw [if_neg hszd, if_neg (ne_nil_of_dataPfx hdl)]
    have hpd : processLine (trimSfx d ['\r']) emptyEvent false
        = (⟨[], wireDataPayload d, []⟩, true) := by
      rw [processLine_data (trimSfx d ['\r']) emptyEvent false hdl]
      rfl
    have hrun := readEventLoop_data_run ds rest frag
      ⟨[], wireDataPayload d, []⟩ (0 + rawBytes d)
      (fun l hl => hd l (List.mem_cons_of_mem d hl)) (by omega)
    simp only [hpd]
    rw [hrun, List.map_cons, joinNL_cons]
    simp [List.map_map, Function.comp_def]

/-- Counterexample for C1 as frozen: a single oversized `data:` line followed
by a blank line is a run of `data:` lines followed by a blank line, yet the
parser returns no event at all — the size guard aborts instead. -/
theorem readEvent_data_block_cex :
    (readEvent ⟨[dataMark ++ List.replicate maxEventSize 'a', []], none⟩).1
      = .error .tooLarge ∧
    ∀ ev : StreamEvent,
      (readEvent ⟨[dataMark ++ List.replicate maxEventSize 'a', []],
        none⟩).1 ≠ .ok ev := by
  have hbig : maxEventSize
      < 0 + rawBytes (dataMark ++ List.replicate maxEventSize 'a') := by
    rw [rawBytes, byteLen_append, byteLen_replicate_a,
      show byteLen dataMark = 6 from by decide]
    omega
  have h1 : (readEvent ⟨[dataMark ++ List.replicate maxEventSize 'a', []],
      none⟩).1 = .error .tooLarge := by
    show (readEventLoop [dataMark ++ List.replicate maxEventSize 'a', []]
      none emptyEvent false 0).1 = _
    rw [readEventLoop_cons, if_pos hbig]
  exact ⟨h1, fun ev hcon => by rw [h1] at hcon; exact Except.noConfusion hcon⟩

/-- Witness for C1 at a concrete two-line data block. -/
theorem readEvent_data_block_witness :
    readEvent ⟨["data: a".toList, "data:b".toList, [], "data: next".toList],
        none⟩ =
      (.ok ⟨[], joinNL (["data: a".toList, "data:b".toList].map wireDataPayload),
        []⟩, ⟨["data: next".toList], none⟩) :=
  readEvent_data_block ["data: a".toList, "data:b".toList]
    ["data: next".toList] none (by decide) (by decide) (by decide)

/-- C2: the payload recorded for a `data:` field line is the line with the
`data:` prefix removed and exactly one leading space removed when present,
with no further whitespace removed; the same one-optional-space rule applies
to `event:` and `id:` lines; concretely `data: X` and `data:X` both give `X`
while `data:  X` gives ` X`. -/
theorem field_line_one_space_rule :
    (∀ (l : Line) (e : StreamEvent) (h : Bool), dataPfx <+: l →
      processLine l e h =
        (if h then
          { e with data := e.data ++ '\n' :: stripOneSpace (l.drop dataPfx.length) }
         else { e with data := stripOneSpace (l.drop dataPfx.length) }, true)) ∧
    (∀ (l : Line) (e : StreamEvent) (h : Bool), eventPfx <+: l →
      processLine l e h =
        ({ e with type := stripOneSpace (l.drop eventPfx.length) }, h)) ∧
    (∀ (l : Line) (e : StreamEvent) (h : Bool), idPfx <+: l →
      processLine l e h =
        ({ e with id := stripOneSpace (l.drop idPfx.length) }, h)) ∧
    (processLine "data: X".toList emptyEvent false).1.data = ['X'] ∧
    (processLine "data:X".toList emptyEvent false).1.data = ['X'] ∧
    (processLine "data:  X".toList emptyEvent false).1.data = [' ', 'X'] := by
  refine ⟨?_, ?_, ?_, by decide, by decide, by decide⟩
  · intro l e h hl
    rw [processLine_data l e h hl]
    rfl
  · intro l e h hl
    exact processLine_event l e h hl
  · intro l e h hl
    exact processLine_id l e h hl

/-- Witness for C2 at concrete `data:`/`event:`/`id:` lines. -/
theorem field_line_one_space_rule_witness :
    processLine "event:ping".toList emptyEvent false =
      ({ emptyEvent with
          type := stripOneSpace ("event:ping".toList.drop eventPfx.length) },
        false) ∧
    processLine "id: 7".toList emptyEvent true =
      ({ emptyEvent with
          id := stripOneSpace ("id: 7".toList.drop idPfx.length) }, true) :=
  ⟨field_line_one_space_rule.2.1 "event:ping".toList emptyEvent false (by decide),
   field_line_one_space_rule.2.2.1 "id: 7".toList emptyEvent true (by decide)⟩

/-- C9: a final line not terminated by a newline is discarded entirely — the
parsed outcome never depends on the fragment's content — and the input
consisting solely of `data: hello` with no trailing newline produces no
event: `Next` returns false and `Err` is nil. -/
theorem unterminated_final_line_discarded :
    (∀ (ls : List Line) (f₁ f₂ : Option Line),
      (readEvent ⟨ls, f₁⟩).1 = (readEvent ⟨ls, f₂⟩).1) ∧
    Stream.Next ⟨⟨[], some "data: hello".toList⟩, none, none, false, true, 0,
        none⟩ =
      (false, ⟨⟨[], none⟩, none, none, false, true, 0, none⟩) ∧
    Stream.Err (Stream.Next ⟨⟨[], some "data: hello".toList⟩, none, none,
        false, true, 0, none⟩).2 = none :=
  ⟨fun ls f₁ f₂ => readEventLoop_frag_irrel ls f₁ f₂ emptyEvent false 0,
   by decide, by decide⟩

/-- C10: a blank line seen while no `data:` line is pending does not reset
the in-progress accumulator — the loop continues with the same event, only
the size counter advancing by the blank line's byte — and concretely
`event: foo\n\ndata: x\n\n` yields the single event with Type `foo` and
Data `x`. -/
theorem blank_line_no_reset :
    (∀ (rest : List Line) (frag : Option Line) (e : StreamEvent) (t : Nat),
      t + 1 ≤ maxEventSize →
      readEventLoop ([] :: rest) frag e false t =
        readEventLoop rest frag e false (t + 1)) ∧
    readEvent ⟨["event: foo".toList, [], "data: x".toList, []], none⟩ =
      (.ok ⟨"foo".toList, "x".toList, []⟩, ⟨[], none⟩) := by
  constructor
  · intro rest frag e t ht
    rw [readEventLoop_cons]
    have h1 : ¬ maxEventSize < t + rawBytes ([] : Line) := by
      rw [show rawBytes ([] : Line) = 1 from by decide]
      omega
    rw [if_neg h1, if_pos (show trimSfx ([] : Line) ['\r'] = [] from by decide)]
    rw [if_neg (by exact Bool.false_ne_true)]
    rw [show rawBytes ([] : Line) = 1 from by decide]
  · decide

/-- Witness for C10: the blank-line continuation applied with the type
already set. -/
theorem blank_line_no_reset_witness :
    readEventLoop ([] :: ["data: x".toList]) none ⟨"foo".toList, [], []⟩
        false 0 =
      readEventLoop ["data: x".toList] none ⟨"foo".toList, [], []⟩ false 1 :=
  blank_line_no_reset.1 ["data: x".toList] none ⟨"foo".toList, [], []⟩ 0
    (by decide)


/-- C3: when input ends while at least one `data:` line is pending and no
blank line has terminated the event, the partial event is salvaged exactly
once — `Next` is true once more with it as current — and the following
advance ends cleanly (`Next` false, `Err` nil); when input ends with no
pending data, iteration ends cleanly with no error and no event. -/
theorem eof_salvages_pending_event :
    (∀ (s : StreamState) (ls : List Line) (frag : Option Line),
      s.closed = false → s.err = none → s.reader = ⟨ls, frag⟩ →
      (∀ l ∈ ls, trimSfx l ['\r'] ≠ []) →
      (ls.map rawBytes).sum ≤ maxEventSize →
      (scanLines ls emptyEvent false).2 = true →
      (Stream.Next s).1 = true ∧
      (Stream.Next s).2.current = some (scanLines ls emptyEvent false).1 ∧
      (Stream.Next s).2.err = none ∧
      Stream.Next (Stream.Next s).2 = (false, (Stream.Next s).2) ∧
      Stream.Err (Stream.Next (Stream.Next s).2).2 = none) ∧
    (∀ (s : StreamState) (frag : Option Line),
      s.closed = false → s.err = none → s.reader = ⟨[], frag⟩ →
      Stream.Next s = (false, { s with reader := (⟨[], none⟩ : Reader) }) ∧
      Stream.Err (Stream.Next s).2 = none ∧
      (Stream.Next s).2.current = s.current) := by
  constructor
  · intro s ls frag hclosed herr hr hb hsz hdata
    have hscan := readEventLoop_no_blank ls frag emptyEvent false 0 hb (by omega)
    have hre : readEvent s.reader
        = (.ok (scanLines ls emptyEvent false).1, ⟨[], none⟩) := by
      rw [hr]
      show readEventLoop ls frag emptyEvent false 0 = _
      rw [hscan, if_pos hdata]
    have hcond : ¬ (s.closed || s.err.isSome) = true := by
      rw [hclosed, herr]
      exact Bool.false_ne_true
    have hnext : Stream.Next s = (true, { s with
        reader := (⟨[], none⟩ : Reader),
        current := some (scanLines ls emptyEvent false).1 }) := by
      unfold Stream.Next
      rw [if_neg hcond, hre]
    have h4 : Stream.Next (Stream.Next s).2 = (false, (Stream.Next s).2) := by
      rw [hnext]
      exact Next_empty_reader _ hclosed herr rfl
    refine ⟨by rw [hnext], by rw [hnext], by rw [hnext]; exact herr, h4, ?_⟩
    rw [h4, hnext]
    exact herr
  · intro s frag hclosed herr hr
    have hcond : ¬ (s.closed || s.err.isSome) = true := by
      rw [hclosed, herr]
      exact Bool.false_ne_true
    have hre : readEvent s.reader = (.error .eof, ⟨[], none⟩) := by
      rw [hr]
      rfl
    have hnext : Stream.Next s
        = (false, { s with reader := (⟨[], none⟩ : Reader) }) := by
      unfold Stream.Next
      rw [if_neg hcond, hre]
    exact ⟨hnext, by rw [hnext]; exact herr, by rw [hnext]⟩

/-- Witness for C3: a one-line pending `data:` event salvaged at EOF, then a
clean end of iteration. -/
theorem eof_salvages_pending_event_witness :
    (Stream.Next ⟨⟨["data: hi".toList], none⟩, none, none, false, true, 0,
        none⟩).1 = true ∧
    (Stream.Next ⟨⟨["data: hi".toList], none⟩, none, none, false, true, 0,
        none⟩).2.current
      = some (scanLines ["data: hi".toList] emptyEvent false).1 ∧
    (Stream.Next ⟨⟨["data: hi".toList], none⟩, none, none, false, true, 0,
        none⟩).2.err = none ∧
    Stream.Next (Stream.Next ⟨⟨["data: hi".toList], none⟩, none, none, false,
        true, 0, none⟩).2
      = (false, (Stream.Next ⟨⟨["data: hi".toList], none⟩, none, none, false,
          true, 0, none⟩).2) ∧
    Stream.Err (Stream.Next (Stream.Next ⟨⟨["data: hi".toList], none⟩, none,
        none, false, true, 0, none⟩).2).2 = none :=
  eof_salvages_pending_event.1
    ⟨⟨["data: hi".toList], none⟩, none, none, false, true, 0, none⟩
    ["data: hi".toList] none rfl rfl rfl (by decide) (by decide) (by decide)

/-- C4: when the raw bytes of the lines read while assembling one event
exceed `maxEventSize`, `readEvent` aborts with the size error and returns no
event; the size counter restarts at zero on every `readEvent` call (it is
per event, not per stream); and through `Next` the error becomes the sticky
error. -/
theorem event_size_guard :
    (∀ (ls : List Line) (frag : Option Line),
      (∀ (k : Nat) (hk : k < ls.length),
        trimSfx (ls.get ⟨k, hk⟩) ['\r'] = [] →
        (scanLines (ls.take k) emptyEvent false).2 = false) →
      maxEventSize < (ls.map rawBytes).sum →
      (readEvent ⟨ls, frag⟩).1 = .error .tooLarge) ∧
    (∀ r : Reader, readEvent r = readEventLoop r.lines r.frag emptyEvent false 0) ∧
    (∀ s : StreamState, s.closed = false → s.err = none →
      (readEvent s.reader).1 = .error .tooLarge →
      (Stream.Next s).1 = false ∧
      Stream.Err (Stream.Next s).2 = some .tooLarge) := by
  refine ⟨?_, fun r => rfl, ?_⟩
  · intro ls frag hne hover
    exact readEventLoop_over ls frag emptyEvent false 0 hne (by omega) (by omega)
  · intro s hclosed herr htoo
    have hcond : ¬ (s.closed || s.err.isSome) = true := by
      rw [hclosed, herr]
      exact Bool.false_ne_true
    have hsplit : readEvent s.reader
        = (.error .tooLarge, (readEvent s.reader).2) := by
      rw [← htoo]
    have hnext : Stream.Next s = (false,
        { s with reader := (readEvent s.reader).2, err := some .tooLarge }) := by
      unfold Stream.Next
      rw [if_neg hcond, hsplit]
    exact ⟨by rw [hnext], by rw [hnext]; rfl⟩

/-- Witness for C4: a single line of more than 10 MiB aborts with the size
error, which sticks on the stream. -/
theorem event_size_guard_witness :
    (readEvent ⟨[List.replicate maxEventSize 'a'], none⟩).1
      = .error .tooLarge ∧
    Stream.Err (Stream.Next ⟨⟨[List.replicate maxEventSize 'a'], none⟩, none,
        none, false, true, 0, none⟩).2 = some .tooLarge := by
  have hb : ∀ (k : Nat) (hk : k < [List.replicate maxEventSize 'a'].length),
      trimSfx ([List.replicate maxEventSize 'a'].get ⟨k, hk⟩) ['\r'] = [] →
      (scanLines ([List.replicate maxEventSize 'a'].take k) emptyEvent
        false).2 = false := by
    intro k hk hbl
    match k, hk with
    | 0, _ =>
      refine absurd hbl (trimSfx_single_ne_nil _ _ ?_)
      show 2 ≤ (List.replicate maxEventSize 'a').length
      rw [List.length_replicate]
      decide
    | k + 1, hk => exact absurd hk (by simp)
  have hover : maxEventSize
      < (([List.replicate maxEventSize 'a']).map rawBytes).sum := by
    have hsum : ([List.replicate maxEventSize 'a'].map rawBytes).sum
        = maxEventSize + 1 := by
      rw [List.map_cons, List.map_nil, List.sum_cons, List.sum_nil,
        rawBytes, byteLen_replicate_a]
      exact Nat.add_zero _
    rw [hsum]
    exact Nat.lt_succ_self _
  have h1 := event_size_guard.1 [List.replicate maxEventSize 'a'] none hb hover
  refine ⟨h1, ?_⟩
  exact (event_size_guard.2.2
    ⟨⟨[List.replicate maxEventSize 'a'], none⟩, none, none, false, true, 0,
      none⟩ rfl rfl h1).2

/-- C5: the terminal state is a one-way latch: a closed or errored stream's
`Next` returns false immediately with no state change; `Next` never changes
the closed flag; a set sticky error survives `Next` (and `Close`) unchanged;
and a clean EOF from the reader sets no error. -/
theorem terminal_state_latch :
    (∀ s : StreamState, s.closed = true ∨ s.err.isSome = true →
      Stream.Next s = (false, s)) ∧
    (∀ s : StreamState, (Stream.Next s).2.closed = s.closed) ∧
    (∀ (s : StreamState) (e : SSEErr), s.err = some e →
      Stream.Next s = (false, s) ∧ Stream.Err (Stream.Next s).2 = some e) ∧
    (∀ s : StreamState, s.err = none → (readEvent s.reader).1 = .error .eof →
      Stream.Err (Stream.Next s).2 = none) ∧
    (∀ s : StreamState, (Stream.Close s).2.err = s.err) := by
  refine ⟨?_, ?_, ?_, ?_, ?_⟩
  · intro s h
    have hc : (s.closed || s.err.isSome) = true := by
      rcases h with h | h <;> simp [h]
    unfold Stream.Next
    rw [if_pos hc]
  · intro s
    unfold Stream.Next
    split
    · rfl
    · split <;> rfl
  · intro s e he
    have h1 : Stream.Next s = (false, s) := by
      unfold Stream.Next
      rw [if_pos (by simp [he])]
    exact ⟨h1, by rw [h1]; exact he⟩
  · intro s herr heof
    by_cases hcl : s.closed = true
    · have h1 : Stream.Next s = (false, s) := by
        unfold Stream.Next
        rw [if_pos (by simp [hcl])]
      rw [h1]
      exact herr
    · rw [Bool.not_eq_true] at hcl
      have hcond : ¬ (s.closed || s.err.isSome) = true := by
        rw [hcl, herr]
        exact Bool.false_ne_true
      have hsplit : readEvent s.reader
          = (.error .eof, (readEvent s.reader).2) := by
        rw [← heof]
      have h1 : Stream.Next s
          = (false, { s with reader := (readEvent s.reader).2 }) := by
        unfold Stream.Next
        rw [if_neg hcond, hsplit]
      rw [h1]
      exact herr
  · intro s
    by_cases hcl : s.closed = true
    · simp [Stream.Close, hcl]
    · rw [Bool.not_eq_true] at hcl
      by_cases hb : s.hasBody = true
      · simp [Stream.Close, hcl, hb]
      · rw [Bool.not_eq_true] at hb
        simp [Stream.Close, hcl, hb]

/-- Witness for C5: a closed stream with events still buffered never yields
them, and an errored stream keeps its error through an advance. -/
theorem terminal_state_latch_witness :
    Stream.Next ⟨⟨["data: x".toList, []], none⟩, none, none, true, true, 1,
        none⟩
      = (false, ⟨⟨["data: x".toList, []], none⟩, none, none, true, true, 1,
          none⟩) ∧
    Stream.Err (Stream.Next ⟨⟨["data: x".toList, []], none⟩, none,
        some .tooLarge, false, true, 0, none⟩).2 = some .tooLarge :=
  ⟨terminal_state_latch.1 _ (Or.inl rfl),
   (terminal_state_latch.2.2.1 _ .tooLarge rfl).2⟩


/-- C6: every event delivered by the EventsWithContext producer is an
independent copy of the current slot: as the loop keeps advancing, the
delivered sequence only grows (previously delivered pointers keep their
order) and the cells they point to never change — so delivered events'
Type, Data and ID are untouched by later advances. -/
theorem events_are_copies (c : ChanState)
    (hinv : ∀ loc ∈ c.sent, loc < c.store.length) (n k : Nat) :
    (chanRun c n).sent <+: (chanRun c (n + k)).sent ∧
    ∀ loc ∈ (chanRun c n).sent,
      (chanRun c (n + k)).store[loc]? = (chanRun c n).store[loc]? := by
  rw [chanRun_add]
  obtain ⟨hstore, hsent, hinv1⟩ := chanRun_mono c n
  obtain ⟨gstore, gsent, _⟩ := chanRun_mono (chanRun c n) k
  refine ⟨gsent, fun loc hloc => ?_⟩
  exact prefix_lookup_eq gstore (hinv1 hinv loc hloc)

/-- Witness for C6: the producer over a one-event stream, one iteration then
one more. -/
theorem events_are_copies_witness :
    (chanRun ⟨⟨⟨["data: x".toList, []], none⟩, none, none, false, true, 0,
        none⟩, [], []⟩ 1).sent <+:
      (chanRun ⟨⟨⟨["data: x".toList, []], none⟩, none, none, false, true, 0,
        none⟩, [], []⟩ (1 + 1)).sent ∧
    ∀ loc ∈ (chanRun ⟨⟨⟨["data: x".toList, []], none⟩, none, none, false,
        true, 0, none⟩, [], []⟩ 1).sent,
      (chanRun ⟨⟨⟨["data: x".toList, []], none⟩, none, none, false, true, 0,
          none⟩, [], []⟩ (1 + 1)).store[loc]? =
        (chanRun ⟨⟨⟨["data: x".toList, []], none⟩, none, none, false, true, 0,
          none⟩, [], []⟩ 1).store[loc]? :=
  events_are_copies
    ⟨⟨⟨["data: x".toList, []], none⟩, none, none, false, true, 0, none⟩,
      [], []⟩ (by intro loc hloc; simp at hloc) 1 1

/-- C7: Close is idempotent: the first call sets the closed flag, releases
the response body exactly once (when present) and returns that release's
result; every later call is a no-op returning nil and never releases the
body a second time. -/
theorem close_idempotent :
    (∀ s : StreamState, s.closed = false →
      (Stream.Close s).2.closed = true ∧
      (s.hasBody = true →
        Stream.Close s = (s.bodyCloseRes,
          { s with closed := true, bodyCloses := s.bodyCloses + 1 })) ∧
      (s.hasBody = false →
        Stream.Close s = (none, { s with closed := true })) ∧
      Stream.Close (Stream.Close s).2 = (none, (Stream.Close s).2) ∧
      (Stream.Close (Stream.Close s).2).2.bodyCloses
        = (Stream.Close s).2.bodyCloses) ∧
    (∀ s : StreamState, s.closed = true → Stream.Close s = (none, s)) := by
  have hclosed : ∀ s : StreamState, s.closed = true →
      Stream.Close s = (none, s) := by
    intro s h
    unfold Stream.Close
    rw [if_pos h]
  refine ⟨fun s h => ?_, hclosed⟩
  by_cases hb : s.hasBody = true
  · have h1 : Stream.Close s = (s.bodyCloseRes,
        { s with closed := true, bodyCloses := s.bodyCloses + 1 }) := by
      simp [Stream.Close, h, hb]
    refine ⟨by rw [h1], fun _ => h1,
      fun hb2 => absurd hb (by simp [hb2]), ?_, ?_⟩
    · rw [h1]
      exact hclosed _ rfl
    · rw [h1, hclosed _ rfl]
  · rw [Bool.not_eq_true] at hb
    have h1 : Stream.Close s = (none, { s with closed := true }) := by
      simp [Stream.Close, h, hb]
    refine ⟨by rw [h1], fun hb2 => absurd hb2 (by simp [hb]),
      fun _ => h1, ?_, ?_⟩
    · rw [h1]
      exact hclosed _ rfl
    · rw [h1, hclosed _ rfl]

/-- Witness for C7: closing an open stream once releases the body and
returns its result; closing again is a no-op. -/
theorem close_idempotent_witness :
    Stream.Close ⟨⟨[], none⟩, none, none, false, true, 0, none⟩ =
      (none, ⟨⟨[], none⟩, none, none, true, true, 1, none⟩) ∧
    Stream.Close ⟨⟨[], none⟩, none, none, true, true, 1, none⟩ =
      (none, ⟨⟨[], none⟩, none, none, true, true, 1, none⟩) :=
  ⟨(close_idempotent.1 ⟨⟨[], none⟩, none, none, false, true, 0, none⟩
      rfl).2.1 rfl,
   close_idempotent.2 ⟨⟨[], none⟩, none, none, true, true, 1, none⟩ rfl⟩

/-- C8: the response tail of Client.Stream creates a Stream exactly when the
status is 200 and the Content-Type starts with text/event-stream; a non-200
status yields a STREAM_ERROR carrying the status and an at-most-4096-byte
excerpt of the body; a 200 with another content-type yields
INVALID_RESPONSE; both failure paths release the body and create no
Stream. -/
theorem client_stream_response (resp : HTTPResponse) :
    ((handleStreamResponse resp).stream.isSome = true ↔
      resp.statusCode = 200 ∧ tesPfx <+: resp.contentType) ∧
    (resp.statusCode ≠ 200 →
      handleStreamResponse resp =
        ⟨none,
         some ⟨"STREAM_ERROR".toList,
           "stream request failed: ".toList ++ resp.body.take maxErrorBodySize,
           resp.statusCode⟩,
         true⟩) ∧
    ((resp.body.take maxErrorBodySize).length ≤ maxErrorBodySize ∧
      resp.body.take maxErrorBodySize <+: resp.body) ∧
    (resp.statusCode = 200 → ¬ tesPfx <+: resp.contentType →
      handleStreamResponse resp =
        ⟨none,
         some ⟨"INVALID_RESPONSE".toList,
           "unexpected content type: ".toList ++ resp.contentType,
           resp.statusCode⟩,
         true⟩) ∧
    (resp.statusCode = 200 → tesPfx <+: resp.contentType →
      handleStreamResponse resp =
        ⟨some ⟨Reader.ofBytes resp.body, none, none, false, true, 0, none⟩,
         none, false⟩) := by
  have hexc : (resp.body.take maxErrorBodySize).length ≤ maxErrorBodySize ∧
      resp.body.take maxErrorBodySize <+: resp.body := by
    constructor
    · rw [List.length_take]
      exact Nat.min_le_left _ _
    · exact List.take_prefix _ _
  by_cases h200 : resp.statusCode = 200
  · by_cases hct : tesPfx <+: resp.contentType
    · have hh : handleStreamResponse resp =
          ⟨some ⟨Reader.ofBytes resp.body, none, none, false, true, 0, none⟩,
           none, false⟩ := by
        unfold handleStreamResponse
        rw [if_neg (by simp [h200]),
          if_neg (by simp [List.isPrefixOf_iff_prefix, hct])]
      refine ⟨?_, fun hne => absurd h200 hne, hexc,
        fun _ hnct => absurd hct hnct, fun _ _ => hh⟩
      rw [hh]
      simp [h200, hct]
    · have hh : handleStreamResponse resp =
          ⟨none,
           some ⟨"INVALID_RESPONSE".toList,
             "unexpected content type: ".toList ++ resp.contentType,
             resp.statusCode⟩,
           true⟩ := by
        unfold handleStreamResponse
        rw [if_neg (by simp [h200]),
          if_pos (by simp [List.isPrefixOf_iff_prefix, hct])]
      refine ⟨?_, fun hne => absurd h200 hne, hexc,
        fun _ _ => hh, fun _ hctt => absurd hctt hct⟩
      rw [hh]
      simp [hct]
  · have hh : handleStreamResponse resp =
        ⟨none,
         some ⟨"STREAM_ERROR".toList,
           "stream request failed: ".toList ++ resp.body.take maxErrorBodySize,
           resp.statusCode⟩,
         true⟩ := by
      unfold handleStreamResponse
      rw [if_pos h200]
    refine ⟨?_, fun _ => hh, hexc,
      fun h2 => absurd h2 h200, fun h2 _ => absurd h2 h200⟩
    rw [hh]
    simp [h200]

/-- Witness for C8: a 404 with an HTML body yields STREAM_ERROR with the
status and the (short) body excerpt and no Stream. -/
theorem client_stream_response_witness :
    handleStreamResponse ⟨404, "text/html".toList, "oops".toList⟩ =
      ⟨none,
       some ⟨"STREAM_ERROR".toList,
         "stream request failed: ".toList
           ++ ("oops".toList.take maxErrorBodySize),
         404⟩,
       true⟩ :=
  (client_stream_response ⟨404, "text/html".toList, "oops".toList⟩).2.1
    (by decide)

end Stromboli
